import Mathlib

/-!
Verification development for the iRunner repository (an NCBI SRA assembly
pipeline).  The Python sources `utils.py` and `irunner.py` are shallowly
embedded below: pure computations become Lean functions, the behaviour of
external subprocesses is passed in as explicit data, and Python exceptions
become explicit result constructors.
-/

/-! ## utils.py -/

/-- Model of `utils.ApplicationError`: carries the return code, the command
line string, and the captured stdout and stderr strings. -/
structure ApplicationError where
  returncode : Int
  cmd : String
  stdout : String
  stderr : String
deriving DecidableEq

/-- Observable behaviour of a child process spawned by `run_cmd`: its return
code and the text it wrote to the stdout and stderr pipes. -/
structure ProcResult where
  returncode : Int
  stdout : String
  stderr : String
deriving DecidableEq

/-- Model of `utils.run_cmd` with the default capture arguments
(`stdout=True`, `stderr=True`, so both streams are piped and captured as
strings).  The child process itself is external; its observable behaviour is
the `ProcResult` argument.  The Python code raises `ApplicationError` when
`return_code` is truthy, i.e. non-zero, and otherwise returns the pair of
captured strings. -/
def runCmd (cmd : String) (res : ProcResult) : Except ApplicationError (String × String) :=
  if res.returncode ≠ 0 then
    .error ⟨res.returncode, cmd, res.stdout, res.stderr⟩
  else
    .ok (res.stdout, res.stderr)

/-! ## XML model

`xml.etree.cElementTree` elements are modelled by their tag, attribute
dictionary (a list of key/value pairs with distinct keys, in document order)
and child list. -/

/-- An XML element: tag, attributes, children. -/
structure Element where
  tag : String
  attrib : List (String × String)
  children : List Element

/-- Attribute lookup, `elem.attrib[key]`; `none` models a `KeyError`. -/
def Element.attr (e : Element) (key : String) : Option String :=
  (e.attrib.find? (fun p => p.1 = key)).map (fun p => p.2)

/-- Accumulating decimal-digit scanner used by `pyInt`. -/
def pyDigitsAux : Nat → List Char → Option Nat
  | acc, [] => some acc
  | acc, c :: cs =>
    if c.isDigit then pyDigitsAux (acc * 10 + (c.toNat - 48)) cs else none

/-- Model of the Python built-in `int()` applied to a string, for the strings
relevant here: an optional sign followed by one or more ASCII decimal digits.
`none` models a `ValueError`. -/
def pyInt (s : String) : Option Int :=
  match s.toList with
  | [] => none
  | '-' :: c :: cs => (pyDigitsAux 0 (c :: cs)).map (fun n => -(n : Int))
  | '+' :: c :: cs => (pyDigitsAux 0 (c :: cs)).map (fun n => (n : Int))
  | c :: cs =>
    if c = '-' ∨ c = '+' then none
    else (pyDigitsAux 0 (c :: cs)).map (fun n => (n : Int))

/-- `int(elem.attrib[key])`: attribute lookup followed by integer conversion;
`none` models a `KeyError` or a `ValueError`. -/
def attrInt (e : Element) (key : String) : Option Int :=
  (e.attr key).bind pyInt

/-- Sequentially apply a fallible function to every element of a list,
propagating the first failure (the effect of `tuple(map(f, xs))` when `f`
can raise). -/
def mapOpt {α β : Type} (f : α → Option β) : List α → Option (List β)
  | [] => some []
  | a :: l => do
    let b ← f a
    let bs ← mapOpt f l
    pure (b :: bs)

/-! ## SequenceReadArchive statistics accessors (irunner.py) -/

namespace SequenceReadArchive

/-- The elements matched by `findall('*/Quality')` on the statistics tree:
the children, tagged `Quality`, of every child of the root, in document
order. -/
def qualityElems (root : Element) : List Element :=
  root.children.flatMap (fun c => c.children.filter (fun q => q.tag = "Quality"))

/-- One iteration of the loop body of `count_bases`: parse the `value`
attribute, and when it is at least `min_score` add the parsed `count`
attribute to the accumulator. -/
def qstep (min_score : Int) (c : Int) (q : Element) : Option Int := do
  let v ← attrInt q "value"
  if min_score ≤ v then
    let cnt ← attrInt q "count"
    pure (c + cnt)
  else
    pure c

/-- Model of `SequenceReadArchive.count_bases`: starting from `0`, fold the
loop body over `findall('*/Quality')`.  `none` models a propagating
`KeyError`/`ValueError` from an attribute access or `int()` conversion. -/
def count_bases (root : Element) (min_score : Int) : Option Int :=
  (qualityElems root).foldlM (qstep min_score) 0

/-- Model of the `total_bases` property: `count_bases` at its default
threshold `min_score=0`. -/
def total_bases (root : Element) : Option Int :=
  count_bases root 0

/-- Model of the `layout` property:
`self._stat_tree.find('Statistics').attrib['nreads']` — the `nreads`
attribute of the first child of the root tagged `Statistics`.  `none` models
the `AttributeError` (no such child) or `KeyError` (no such attribute). -/
def layout (root : Element) : Option String :=
  (root.children.find? (fun c => c.tag = "Statistics")).bind (fun s => s.attr "nreads")

end SequenceReadArchive

mutual

/-- Model of `elem.iter(tag)`: the element itself when its tag matches,
followed by the matching descendants, in document (preorder) order. -/
def Element.iterTag : Element → String → List Element
  | .mk t a cs, tag => (if t = tag then [Element.mk t a cs] else []) ++ iterTagList cs tag
termination_by structural e => e

/-- `iter(tag)` concatenated over a list of elements. -/
def iterTagList : List Element → String → List Element
  | [], _ => []
  | c :: cs, tag => c.iterTag tag ++ iterTagList cs tag
termination_by structural es => es

end

namespace SequenceReadArchive

/-- The elements matched by `findall('*//Read')`: for each child of the root,
its proper descendants tagged `Read` (i.e. `c.iter('Read')` with `c` itself
removed), in document order. -/
def readElems (root : Element) : List Element :=
  root.children.flatMap (fun c => iterTagList c.children "Read")

/-- Model of the `length` property:
`tuple(map(lambda x: int(x.attrib['average']), findall('*//Read')))`.
`none` models a propagating `KeyError`/`ValueError`. -/
def length (root : Element) : Option (List Int) :=
  mapOpt (fun r => attrInt r "average") (readElems root)

end SequenceReadArchive

/-! ## SequenceReadArchive construction (irunner.py `__init__`)

`_check_input` reads the first line of the file in binary mode, takes its
first 8 bytes, decodes them as UTF-8, and raises `TypeError` unless the
result is the string `NCBI.sra`; then `_get_statistics` runs the external
`sra-stat` tool and parses its stdout into the statistics tree.  The file is
modelled as its list of bytes, and the outcome of the `sra-stat` invocation
(including XML parsing of its stdout) is passed in as data. -/

/-- The first line of a binary file, as returned by `next(handle)`: all bytes
up to and including the first newline byte, or the whole content when it has
no newline. -/
def firstLine : List Nat → List Nat
  | [] => []
  | b :: rest => if b = 10 then [10] else b :: firstLine rest

/-- State machine for strict UTF-8 decoding (as performed by Python
`bytes.decode()`): `none` expects a lead byte; `some (lo, hi, k, acc)`
expects `k` more continuation bytes, the next one in `[lo, hi]`, with `acc`
the code point accumulated so far.  Returns the code points, or `none` on a
malformed or truncated sequence.  The ranges on the first continuation byte
rule out overlong encodings, surrogates and code points above `0x10FFFF`,
exactly as the strict UTF-8 codec does. -/
def utf8Aux : Option (Nat × Nat × Nat × Nat) → List Nat → Option (List Nat)
  | none, [] => some []
  | some _, [] => none
  | none, b :: rest =>
    if b < 128 then (utf8Aux none rest).map (fun cps => b :: cps)
    else if 194 ≤ b ∧ b ≤ 223 then utf8Aux (some (128, 191, 1, b - 192)) rest
    else if b = 224 then utf8Aux (some (160, 191, 2, 0)) rest
    else if 225 ≤ b ∧ b ≤ 236 then utf8Aux (some (128, 191, 2, b - 224)) rest
    else if b = 237 then utf8Aux (some (128, 159, 2, 13)) rest
    else if 238 ≤ b ∧ b ≤ 239 then utf8Aux (some (128, 191, 2, b - 224)) rest
    else if b = 240 then utf8Aux (some (144, 191, 3, 0)) rest
    else if 241 ≤ b ∧ b ≤ 243 then utf8Aux (some (128, 191, 3, b - 240)) rest
    else if b = 244 then utf8Aux (some (128, 143, 3, 4)) rest
    else none
  | some (lo, hi, k, acc), b :: rest =>
    if lo ≤ b ∧ b ≤ hi then
      if k = 1 then (utf8Aux none rest).map (fun cps => (acc * 64 + (b - 128)) :: cps)
      else utf8Aux (some (128, 191, k - 1, acc * 64 + (b - 128))) rest
    else none

/-- Model of `bytes.decode()` (strict UTF-8): the decoded string, or `none`
for a `UnicodeDecodeError`. -/
def pyDecode (bs : List Nat) : Option String :=
  (utf8Aux none bs).map (fun cps => String.mk (cps.map Char.ofNat))

/-- A successfully constructed `SequenceReadArchive`: the `run` attribute
(the input path) and the parsed statistics tree. -/
structure SRA where
  run : String
  stat_tree : Element

/-- Outcome of `SequenceReadArchive(...)`: either a constructed object, or
one of the exceptions the constructor can raise (`TypeError` from the header
check, `UnicodeDecodeError` from `.decode()`, `StopIteration` from `next` on
an empty file, or `ApplicationError` propagating from `run_cmd` in
`_get_statistics`). -/
inductive InitResult where
  | ok (sra : SRA)
  | typeError (msg : String)
  | unicodeDecodeError
  | stopIteration
  | appError (e : ApplicationError)

/-- Model of `SequenceReadArchive.__init__` on a file at path `infile` with
byte content `content`; `sraStat` is the outcome of the external
`sra-stat -xse 2` invocation together with the XML parse of its stdout. -/
def sraNew (infile : String) (content : List Nat) (sraStat : Except ApplicationError Element) :
    InitResult :=
  match content with
  | [] => .stopIteration
  | _ :: _ =>
    match pyDecode ((firstLine content).take 8) with
    | none => .unicodeDecodeError
    | some head =>
      if head = "NCBI.sra" then
        match sraStat with
        | .ok t => .ok ⟨infile, t⟩
        | .error e => .appError e
      else .typeError (infile ++ " is not sra file.")

/-! ## Pipeline driver (irunner.py `main`)

The driver is modelled as a function from the check flag and the observable
behaviour of the external world (the outcome of constructing the
`SequenceReadArchive` and of the three tool invocations) to the trace of
events (stages entered and log records written to the log file) and the
final outcome of the process. -/

/-- The pipeline stages of the driver. -/
inductive Stage where
  | obtainReads
  | validate
  | dumpFastq
  | trimReads
  | assemble
  | cleanup
deriving DecidableEq

/-- An observable event of a driver run: a stage being entered, or a record
written to the log file. -/
inductive Event where
  | stage (s : Stage)
  | logInfo (msg : String)
  | logDebug (msg : String)
  | logException (e : ApplicationError)
deriving DecidableEq

/-- Final outcome of the process: normal completion, `sys.exit` (with its
optional message), or an uncaught exception propagating out of `main`. -/
inductive Outcome where
  | done
  | exit (msg : Option String)
  | uncaught (exc : String)
deriving DecidableEq

/-- Outcome of `SequenceReadArchive(reads)` inside the driver: a constructed
object with its statistics tree, an `ApplicationError` (which the driver
catches), or any other exception (`TypeError`, `UnicodeDecodeError`, ...,
which the driver does not catch). -/
inductive SraInit where
  | ok (t : Element)
  | appError (e : ApplicationError)
  | raises (exc : String)

/-- Observable behaviour of the external world during one driver run. -/
structure World where
  sraInit : SraInit
  dumpErr : Option ApplicationError
  trimErr : Option ApplicationError
  asmErr : Option ApplicationError

/-- The stages entered during a run, in order. -/
def stagesOf : List Event → List Stage
  | [] => []
  | Event.stage s :: rest => s :: stagesOf rest
  | Event.logInfo _ :: rest => stagesOf rest
  | Event.logDebug _ :: rest => stagesOf rest
  | Event.logException _ :: rest => stagesOf rest

/-- The body of the `if args.check:` block after a successful construction of
the `SequenceReadArchive`: `none` when both validations pass, otherwise the
events and outcome of the failed validation.  Python evaluates
`sra.layout != '2'` first, then
`sra.count_bases(30)/sra.count_bases()*100 < 80`; the float division is
modelled by exact rational division, and raising `ZeroDivisionError` when the
total base count is zero. -/
def checkStage (t : Element) : Option (List Event × Outcome) :=
  match SequenceReadArchive.layout t with
  | none => some ([], .uncaught "AttributeError")
  | some s =>
    if s ≠ "2" then some ([.logDebug "Layout is not pair-end"], .exit (some "Aborted"))
    else
      match SequenceReadArchive.count_bases t 30, SequenceReadArchive.count_bases t 0 with
      | some c30, some total =>
        if total = 0 then some ([], .uncaught "ZeroDivisionError")
        else if (c30 : ℚ) / (total : ℚ) * 100 < 80 then
          some ([.logDebug "q30 bases < 80%%"], .exit (some "Aborted"))
        else none
      | _, _ => some ([], .uncaught "ValueError")

/-- The dump → trim → assemble → clean-up tail of the driver, appended to the
events `pre` accumulated so far.  Each tool invocation either succeeds or
raises the given `ApplicationError`, in which case the driver logs the
exception and calls `sys.exit("Aborted!")`. -/
def pipelineTail (pre : List Event) (w : World) : List Event × Outcome :=
  let ev1 := pre ++ [.logInfo "Dump fastq from SRA", .stage .dumpFastq]
  match w.dumpErr with
  | some e => (ev1 ++ [.logException e], .exit (some "Aborted!"))
  | none =>
    let ev2 := ev1 ++ [.logInfo "reads trimming", .stage .trimReads]
    match w.trimErr with
    | some e => (ev2 ++ [.logException e], .exit (some "Aborted!"))
    | none =>
      let ev3 := ev2 ++ [.logInfo "assembly with shovill", .stage .assemble]
      match w.asmErr with
      | some e => (ev3 ++ [.logException e], .exit (some "Aborted!"))
      | none => (ev3 ++ [.stage .cleanup, .logInfo "Done"], .done)

/-- Model of `irunner.main`: symlink the input (obtain reads), then, when the
check flag is set, construct the `SequenceReadArchive` (exiting silently on a
caught `ApplicationError`, propagating any other exception) and run the
layout and Q30 validations; then dump, trim, assemble and clean up, exiting
on the first tool failure. -/
def mainDriver (check : Bool) (w : World) : List Event × Outcome :=
  if check then
    match w.sraInit with
    | .raises exc => ([.stage .obtainReads, .stage .validate], .uncaught exc)
    | .appError e => ([.stage .obtainReads, .stage .validate, .logException e], .exit none)
    | .ok t =>
      match checkStage t with
      | some (evs, out) => ([.stage .obtainReads, .stage .validate] ++ evs, out)
      | none => pipelineTail [.stage .obtainReads, .stage .validate] w
  else
    pipelineTail [.stage .obtainReads] w

/-! ## Spec-side definitions

These definitions follow the wording of the specification claims (not the
code); the theorems below compare them with the embedded code. -/

/-- Spec wording for `total_bases`: the sum of the integer `count` attributes
taken over all `Quality` elements, with no threshold applied. -/
def sumAllCounts (root : Element) : Option Int :=
  (mapOpt (fun q => attrInt q "count") (SequenceReadArchive.qualityElems root)).map
    (fun l => l.sum)

/-- The parsed `(value, count)` attribute pair of one `Quality` element. -/
def qualityPair (q : Element) : Option (Int × Int) := do
  let v ← attrInt q "value"
  let k ← attrInt q "count"
  pure (v, k)

/-- The parsed `(value, count)` pairs of all `Quality` elements of the
statistics tree, in document order. -/
def qualityPairs (root : Element) : Option (List (Int × Int)) :=
  mapOpt qualityPair (SequenceReadArchive.qualityElems root)

/-- Spec wording for `length`: the `average` attribute, converted to an
integer, of every element of the statistics tree tagged `Read`, in document
order. -/
def allReadAverages (root : Element) : Option (List Int) :=
  mapOpt (fun r => attrInt r "average") (root.iterTag "Read")

/-! ## Concrete inputs used by witnesses and counterexamples -/

/-- A statistics tree whose only `Quality` element has a negative `value`
attribute. -/
def exNegQuality : Element :=
  ⟨"Run", [], [⟨"Statistics", [("nreads", "2")],
    [⟨"Quality", [("value", "-3"), ("count", "7")], []⟩]⟩]⟩

/-- A statistics tree with two `Quality` elements: 4 bases at quality 35 and
2 bases at quality 20. -/
def exQual : Element :=
  ⟨"Run", [], [⟨"Statistics", [("nreads", "2")],
    [⟨"Quality", [("value", "35"), ("count", "4")], []⟩,
     ⟨"Quality", [("value", "20"), ("count", "2")], []⟩]⟩]⟩

/-- A tree with a `Read` element as a direct child of the root. -/
def exTopRead : Element :=
  ⟨"Run", [], [⟨"Read", [("average", "5")], []⟩]⟩

/-- A paired-end statistics tree with two `Read` elements nested under the
`Statistics` element. -/
def exReads : Element :=
  ⟨"Run", [], [⟨"Statistics", [("nreads", "2")],
    [⟨"Read", [("index", "0"), ("average", "151")], []⟩,
     ⟨"Read", [("index", "1"), ("average", "149")], []⟩]⟩]⟩

/-- A single-end statistics tree: `nreads` is `"1"`. -/
def exUnpaired : Element :=
  ⟨"Run", [], [⟨"Statistics", [("nreads", "1")], []⟩]⟩

/-- A paired-end statistics tree with no `Quality` elements at all. -/
def exNoQuality : Element :=
  ⟨"Run", [], [⟨"Statistics", [("nreads", "2")], []⟩]⟩

/-- An `ApplicationError` as raised by a failing tool invocation. -/
def eDump : ApplicationError :=
  ⟨1, "fastq-dump --split-e --clip --outdir  out/fastq out/READS.sra", "", "error"⟩

/-- A world in which every tool invocation succeeds. -/
def wAllOk : World := ⟨.raises "unused", none, none, none⟩

/-- A world in which the dump-to-FASTQ invocation fails. -/
def wDumpFail : World := ⟨.raises "unused", some eDump, none, none⟩

/-- A world whose statistics report is single-end. -/
def wUnpaired : World := ⟨.ok exUnpaired, none, none, none⟩

/-- A world whose statistics report has no `Quality` elements. -/
def wNoQuality : World := ⟨.ok exNoQuality, none, none, none⟩

/-- The byte content of a well-formed SRA file: the header `NCBI.sra`
followed by a newline and further payload bytes. -/
def sraBytes : List Nat := [78, 67, 66, 73, 46, 115, 114, 97, 10, 0, 7]

/-! ## Helper lemmas -/

theorem stagesOf_append (a b : List Event) :
    stagesOf (a ++ b) = stagesOf a ++ stagesOf b := by
  induction a with
  | nil => simp [stagesOf]
  | cons h t ih => cases h <;> simp [stagesOf, ih]

theorem iterTag_def (e : Element) (tag : String) :
    e.iterTag tag = (if e.tag = tag then [e] else []) ++ iterTagList e.children tag := by
  cases e
  rfl

theorem iterTagList_no_tag (tag : String) :
    ∀ (l : List Element), (∀ c ∈ l, c.tag ≠ tag) →
      iterTagList l tag = l.flatMap (fun c => iterTagList c.children tag) := by
  intro l
  induction l with
  | nil => intro _; rfl
  | cons c cs ih =>
    intro h
    have hc : c.tag ≠ tag := h c (List.mem_cons_self c cs)
    rw [iterTagList, iterTag_def, if_neg hc, ih (fun d hd => h d (List.mem_cons_of_mem c hd))]
    simp

/-! ## Claim theorems -/

/-- C1: `run_cmd` (with the default capture arguments) returns the pair of
captured stdout and stderr strings exactly when the child process exits with
return code zero, and raises `ApplicationError` carrying the return code,
the command string and the captured stdout and stderr exactly when the
return code is non-zero. -/
theorem runCmd_captures_or_raises (cmd : String) (res : ProcResult) :
    (runCmd cmd res = Except.ok (res.stdout, res.stderr) ↔ res.returncode = 0) ∧
    (runCmd cmd res = Except.error ⟨res.returncode, cmd, res.stdout, res.stderr⟩ ↔
      res.returncode ≠ 0) := by
  unfold runCmd
  by_cases h : res.returncode = 0 <;> simp [h]

/-- C1 witness: `run_cmd` evaluated on a process that exits with code 0. -/
theorem runCmd_captures_or_raises_witness :
    (runCmd "fastp" ⟨0, "out", "err"⟩ = Except.ok ("out", "err") ↔ (0 : Int) = 0) ∧
    (runCmd "fastp" ⟨0, "out", "err"⟩ = Except.error ⟨0, "fastp", "out", "err"⟩ ↔
      (0 : Int) ≠ 0) :=
  runCmd_captures_or_raises "fastp" ⟨0, "out", "err"⟩

/-- C2 counterexample: in an invocation without the check flag the dump
stage executes although the validation stage never does, so validation is
not executed before dump in every invocation. -/
theorem validate_skipped_without_check_flag :
    Stage.dumpFastq ∈ stagesOf (mainDriver false wAllOk).1 ∧
    Stage.validate ∉ stagesOf (mainDriver false wAllOk).1 ∧
    (mainDriver false wAllOk).2 = Outcome.done := by decide

/-- C3 counterexample: on a statistics tree whose only `Quality` element has
value `-3` and count `7`, `total_bases` is `0`, not the sum of the `count`
attributes over all `Quality` elements (which is `7`): the default threshold
`0` is applied, it is not "no threshold". -/
theorem total_bases_not_all_quality_sum :
    SequenceReadArchive.total_bases exNegQuality = some 0 ∧
    sumAllCounts exNegQuality = some 7 ∧
    SequenceReadArchive.total_bases exNegQuality ≠ sumAllCounts exNegQuality := by
  decide

/-- C6 counterexample: a `Read` element that is a direct child of the root is
not matched by `findall('*//Read')`, so `length` omits its average: the
claim's "every Read element of the statistics tree" fails. -/
theorem length_skips_top_level_read :
    SequenceReadArchive.length exTopRead = some [] ∧
    allReadAverages exTopRead = some [5] ∧
    SequenceReadArchive.length exTopRead ≠ allReadAverages exTopRead := by
  decide

/-- C9 counterexample: on a file whose first byte is `0xFF`, the first 8
bytes of the first line do not decode to `NCBI.sra`, yet the constructor
raises `UnicodeDecodeError`, not `TypeError`. -/
theorem check_input_invalid_utf8_not_typeerror :
    pyDecode ((firstLine [255]).take 8) = none ∧
    (∀ msg, sraNew "READS.sra" [255] (Except.ok exReads) ≠ InitResult.typeError msg) ∧
    sraNew "READS.sra" [255] (Except.ok exReads) = InitResult.unicodeDecodeError := by
  have he : sraNew "READS.sra" [255] (Except.ok exReads) = InitResult.unicodeDecodeError := rfl
  refine ⟨by decide, ?_, he⟩
  intro msg h
  rw [he] at h
  exact InitResult.noConfusion h

/-- C9 (amended): on a non-empty file, constructing a `SequenceReadArchive`
raises `TypeError` exactly when the first 8 bytes of the first line decode
(as strict UTF-8) to a string different from `NCBI.sra`; bytes that fail to
decode raise `UnicodeDecodeError` instead.  When they decode to `NCBI.sra`,
the `run` attribute is set to the input path and the object fetches the
statistics via the external `sra-stat` tool, propagating its
`ApplicationError` on failure. -/
theorem check_input_typeerror_iff (infile : String) (content : List Nat)
    (stat : Except ApplicationError Element) (hne : content ≠ []) :
    ((∃ msg, sraNew infile content stat = InitResult.typeError msg) ↔
      (∃ s, pyDecode ((firstLine content).take 8) = some s ∧ s ≠ "NCBI.sra")) ∧
    (pyDecode ((firstLine content).take 8) = some "NCBI.sra" →
      (∀ t, stat = Except.ok t → sraNew infile content stat = InitResult.ok ⟨infile, t⟩) ∧
      (∀ e, stat = Except.error e → sraNew infile content stat = InitResult.appError e)) := by
  cases content with
  | nil => exact absurd rfl hne
  | cons b rest =>
    cases hd : pyDecode ((firstLine (b :: rest)).take 8) with
    | none =>
      constructor
      · simp [sraNew, hd]
      · intro h
        exact Option.noConfusion h
    | some head =>
      by_cases hh : head = "NCBI.sra"
      · subst hh
        refine ⟨⟨?_, ?_⟩, ?_⟩
        · rintro ⟨msg, h⟩
          cases stat <;> simp [sraNew, hd] at h
        · rintro ⟨s, hs, hsne⟩
          exact absurd (Option.some.inj hs).symm hsne
        · intro _
          constructor
          · intro t ht
            subst ht
            simp [sraNew, hd]
          · intro e he
            subst he
            simp [sraNew, hd]
      · refine ⟨⟨fun _ => ⟨head, rfl, hh⟩, fun _ => ?_⟩, fun h => ?_⟩
        · exact ⟨infile ++ " is not sra file.", by simp [sraNew, hd, hh]⟩
        · exact absurd (Option.some.inj h) hh

/-- C9 witness: a file starting with the `NCBI.sra` header, whose
construction succeeds. -/
theorem check_input_typeerror_iff_witness :
    sraBytes ≠ [] ∧
    (((∃ msg, sraNew "READS.sra" sraBytes (Except.ok exReads) = InitResult.typeError msg) ↔
       (∃ s, pyDecode ((firstLine sraBytes).take 8) = some s ∧ s ≠ "NCBI.sra")) ∧
     (pyDecode ((firstLine sraBytes).take 8) = some "NCBI.sra" →
       (∀ t, (Except.ok exReads : Except ApplicationError Element) = Except.ok t →
          sraNew "READS.sra" sraBytes (Except.ok exReads) = InitResult.ok ⟨"READS.sra", t⟩) ∧
       (∀ e, (Except.ok exReads : Except ApplicationError Element) = Except.error e →
          sraNew "READS.sra" sraBytes (Except.ok exReads) = InitResult.appError e))) :=
  ⟨by decide, check_input_typeerror_iff "READS.sra" sraBytes (Except.ok exReads) (by decide)⟩

/-! ## Lemmas about the count_bases fold -/

theorem count_bases_eq_foldlM (root : Element) (m : Int) :
    SequenceReadArchive.count_bases root m =
      (SequenceReadArchive.qualityElems root).foldlM (SequenceReadArchive.qstep m) 0 := rfl

theorem qstep_pos (m c : Int) (q : Element) (v k : Int)
    (hv : attrInt q "value" = some v) (hm : m ≤ v) (hk : attrInt q "count" = some k) :
    SequenceReadArchive.qstep m c q = some (c + k) := by
  unfold SequenceReadArchive.qstep
  rw [hv, hk]
  simp [hm]

theorem qstep_neg (m c : Int) (q : Element) (v : Int)
    (hv : attrInt q "value" = some v) (hm : ¬ m ≤ v) :
    SequenceReadArchive.qstep m c q = some c := by
  unfold SequenceReadArchive.qstep
  rw [hv]
  simp [hm]

theorem qstep_value_none (m c : Int) (q : Element)
    (hv : attrInt q "value" = none) :
    SequenceReadArchive.qstep m c q = none := by
  unfold SequenceReadArchive.qstep
  rw [hv]
  rfl

theorem qstep_count_none (m c : Int) (q : Element) (v : Int)
    (hv : attrInt q "value" = some v) (hm : m ≤ v) (hk : attrInt q "count" = none) :
    SequenceReadArchive.qstep m c q = none := by
  unfold SequenceReadArchive.qstep
  rw [hv, hk]
  simp [hm]

theorem foldlM_qstep_shift (m : Int) :
    ∀ (l : List Element) (c : Int),
      l.foldlM (SequenceReadArchive.qstep m) c =
        (l.foldlM (SequenceReadArchive.qstep m) 0).map (fun x => c + x) := by
  intro l
  induction l with
  | nil =>
    intro c
    simp [List.foldlM_nil]
  | cons q t ih =>
    intro c
    rw [List.foldlM_cons, List.foldlM_cons]
    cases hv : attrInt q "value" with
    | none =>
      rw [qstep_value_none m c q hv, qstep_value_none m 0 q hv]
      simp
    | some v =>
      by_cases hm : m ≤ v
      · cases hk : attrInt q "count" with
        | none =>
          rw [qstep_count_none m c q v hv hm hk, qstep_count_none m 0 q v hv hm hk]
          simp
        | some k =>
          rw [qstep_pos m c q v k hv hm hk, qstep_pos m 0 q v k hv hm hk]
          simp only [Option.bind_eq_bind, Option.some_bind]
          rw [ih (c + k), ih (0 + k)]
          cases t.foldlM (SequenceReadArchive.qstep m) 0 with
          | none => simp
          | some x =>
            simp
            ring
      · rw [qstep_neg m c q v hv hm, qstep_neg m 0 q v hv hm]
        simp only [Option.bind_eq_bind, Option.some_bind]
        rw [ih c]

theorem foldlM_qstep_mono (m1 m2 : Int) (h12 : m1 ≤ m2) :
    ∀ l : List Element,
      (∀ q ∈ l, ∀ k : Int, attrInt q "count" = some k → 0 ≤ k) →
      ∀ a : Int, l.foldlM (SequenceReadArchive.qstep m1) 0 = some a →
        ∃ b : Int, l.foldlM (SequenceReadArchive.qstep m2) 0 = some b ∧ b ≤ a := by
  intro l
  induction l with
  | nil =>
    intro _ a ha
    simp [List.foldlM_nil] at ha
    exact ⟨0, by simp [List.foldlM_nil], by omega⟩
  | cons q t ih =>
    intro hnn a ha
    have hnt : ∀ q2 ∈ t, ∀ k : Int, attrInt q2 "count" = some k → 0 ≤ k :=
      fun q2 hq2 => hnn q2 (List.mem_cons_of_mem q hq2)
    rw [List.foldlM_cons] at ha
    rw [List.foldlM_cons]
    cases hv : attrInt q "value" with
    | none =>
      rw [qstep_value_none m1 0 q hv] at ha
      simp at ha
    | some v =>
      by_cases hm1 : m1 ≤ v
      · cases hk : attrInt q "count" with
        | none =>
          rw [qstep_count_none m1 0 q v hv hm1 hk] at ha
          simp at ha
        | some k =>
          have hk0 : 0 ≤ k := hnn q (List.mem_cons_self q t) k hk
          rw [qstep_pos m1 0 q v k hv hm1 hk] at ha
          simp only [Option.bind_eq_bind, Option.some_bind] at ha
          rw [foldlM_qstep_shift] at ha
          cases htl : t.foldlM (SequenceReadArchive.qstep m1) 0 with
          | none => rw [htl] at ha; cases ha
          | some a1 =>
            rw [htl] at ha
            simp at ha
            obtain ⟨b1, hb1, hb1le⟩ := ih hnt a1 htl
            by_cases hm2 : m2 ≤ v
            · refine ⟨k + b1, ?_, by omega⟩
              rw [qstep_pos m2 0 q v k hv hm2 hk]
              simp only [Option.bind_eq_bind, Option.some_bind]
              rw [foldlM_qstep_shift, hb1]
              simp [add_comm]
            · refine ⟨b1, ?_, by omega⟩
              rw [qstep_neg m2 0 q v hv hm2]
              simp only [Option.bind_eq_bind, Option.some_bind]
              exact hb1
      · have hm2 : ¬ m2 ≤ v := fun h => hm1 (le_trans h12 h)
        rw [qstep_neg m1 0 q v hv hm1] at ha
        simp only [Option.bind_eq_bind, Option.some_bind] at ha
        obtain ⟨b, hb, hble⟩ := ih hnt a ha
        refine ⟨b, ?_, hble⟩
        rw [qstep_neg m2 0 q v hv hm2]
        simp only [Option.bind_eq_bind, Option.some_bind]
        exact hb

theorem foldlM_qstep_pairs (m : Int) :
    ∀ (l : List Element) (ps : List (Int × Int)),
      mapOpt qualityPair l = some ps →
      l.foldlM (SequenceReadArchive.qstep m) 0 =
        some (((ps.filter (fun p => m ≤ p.1)).map (fun p => p.2)).sum) := by
  intro l
  induction l with
  | nil =>
    intro ps hps
    simp [mapOpt] at hps
    subst hps
    simp [List.foldlM_nil]
  | cons q t ih =>
    intro ps hps
    cases hp : qualityPair q with
    | none => simp [mapOpt, hp] at hps
    | some p =>
      cases hrest : mapOpt qualityPair t with
      | none => simp [mapOpt, hp, hrest] at hps
      | some ps1 =>
        have hps2 : ps = p :: ps1 := by
          simp [mapOpt, hp, hrest] at hps
          exact hps.symm
        subst hps2
        obtain ⟨v, k⟩ := p
        have hattr : attrInt q "value" = some v ∧ attrInt q "count" = some k := by
          unfold qualityPair at hp
          cases hv1 : attrInt q "value" with
          | none => rw [hv1] at hp; simp at hp
          | some v1 =>
            cases hk1 : attrInt q "count" with
            | none => rw [hv1, hk1] at hp; simp at hp
            | some k1 =>
              rw [hv1, hk1] at hp
              simp at hp
              exact ⟨by rw [hp.1], by rw [hp.2]⟩
        obtain ⟨hval, hcnt⟩ := hattr
        rw [List.foldlM_cons]
        by_cases hm : m ≤ v
        · rw [qstep_pos m 0 q v k hval hm hcnt]
          simp only [Option.bind_eq_bind, Option.some_bind]
          rw [foldlM_qstep_shift, ih ps1 hrest]
          simp [List.filter_cons, hm]
        · rw [qstep_neg m 0 q v hval hm]
          simp only [Option.bind_eq_bind, Option.some_bind]
          rw [ih ps1 hrest]
          simp [List.filter_cons, hm]

/-- C3 (amended): when every `Quality` element carries parseable integer
`value` and `count` attributes (`qualityPairs` succeeds), `count_bases`
returns the sum of the `count` attributes of the `Quality` elements whose
`value` is at or above the threshold `min_score`, and `total_bases` is
`count_bases` at the default threshold `0` (so it applies the threshold `0`
rather than no threshold). -/
theorem count_bases_threshold_sum (root : Element) (m : Int) (ps : List (Int × Int))
    (hps : qualityPairs root = some ps) :
    SequenceReadArchive.count_bases root m =
      some (((ps.filter (fun p => m ≤ p.1)).map (fun p => p.2)).sum) ∧
    SequenceReadArchive.total_bases root = SequenceReadArchive.count_bases root 0 :=
  ⟨foldlM_qstep_pairs m _ ps hps, rfl⟩

/-- C3 witness: the threshold sum evaluated on a concrete statistics tree. -/
theorem count_bases_threshold_sum_witness :
    qualityPairs exQual = some [(35, 4), (20, 2)] ∧
    (SequenceReadArchive.count_bases exQual 30 =
      some (((([(35, 4), (20, 2)] : List (Int × Int)).filter
        (fun p => 30 ≤ p.1)).map (fun p => p.2)).sum) ∧
     SequenceReadArchive.total_bases exQual = SequenceReadArchive.count_bases exQual 0) :=
  ⟨by decide, count_bases_threshold_sum exQual 30 [(35, 4), (20, 2)] (by decide)⟩

/-- C8: under non-negative `count` attributes, `count_bases` is antitone in
its threshold: for thresholds `m1 ≤ m2`, whenever `count_bases m1` succeeds,
`count_bases m2` succeeds with a value that is no larger; in particular
`count_bases 30 ≤ count_bases 0`, so the Q30 percentage
`count_bases(30)/count_bases()*100` computed by the driver is at most 100. -/
theorem count_bases_antitone (t : Element)
    (hnn : ∀ q ∈ SequenceReadArchive.qualityElems t, ∀ k : Int,
      attrInt q "count" = some k → 0 ≤ k) :
    (∀ m1 m2 a : Int, m1 ≤ m2 → SequenceReadArchive.count_bases t m1 = some a →
      ∃ b : Int, SequenceReadArchive.count_bases t m2 = some b ∧ b ≤ a) ∧
    (∀ c30 total : Int, SequenceReadArchive.count_bases t 30 = some c30 →
      SequenceReadArchive.count_bases t 0 = some total → 0 < total →
      (c30 : ℚ) / (total : ℚ) * 100 ≤ 100) := by
  constructor
  · intro m1 m2 a h12 ha
    rw [count_bases_eq_foldlM] at ha
    obtain ⟨b, hb, hble⟩ := foldlM_qstep_mono m1 m2 h12 _ hnn a ha
    exact ⟨b, by rw [count_bases_eq_foldlM]; exact hb, hble⟩
  · intro c30 total h30 h0 hpos
    rw [count_bases_eq_foldlM] at h30 h0
    obtain ⟨b, hb, hble⟩ := foldlM_qstep_mono 0 30 (by norm_num) _ hnn total h0
    have hbc : b = c30 := Option.some.inj (hb.symm.trans h30)
    subst hbc
    have htQ : (0 : ℚ) < (total : ℚ) := by exact_mod_cast hpos
    have hcQ : (b : ℚ) ≤ (total : ℚ) := by exact_mod_cast hble
    have h1 : (b : ℚ) / (total : ℚ) ≤ 1 := (div_le_one htQ).mpr hcQ
    calc (b : ℚ) / (total : ℚ) * 100 ≤ 1 * 100 :=
          mul_le_mul_of_nonneg_right h1 (by norm_num)
      _ = 100 := by norm_num

/-- C8 witness: the antitone bound evaluated on a concrete statistics tree
with 4 bases at quality 35 and 2 bases at quality 20. -/
theorem count_bases_antitone_witness :
    SequenceReadArchive.count_bases exQual 30 = some 4 ∧
    SequenceReadArchive.count_bases exQual 0 = some 6 ∧
    (0 : Int) < 6 ∧
    (((4 : Int) : ℚ) / ((6 : Int) : ℚ) * 100 ≤ 100) := by
  refine ⟨by decide, by decide, by decide, ?_⟩
  refine (count_bases_antitone exQual ?_).2 4 6 (by decide) (by decide) (by decide)
  intro q hq k hk
  simp [SequenceReadArchive.qualityElems, exQual] at hq
  rcases hq with h1 | h2
  · subst h1
    have he : attrInt (⟨"Quality", [("value", "35"), ("count", "4")], []⟩ : Element)
        "count" = some 4 := by decide
    rw [he] at hk
    have := Option.some.inj hk
    omega
  · subst h2
    have he : attrInt (⟨"Quality", [("value", "20"), ("count", "2")], []⟩ : Element)
        "count" = some 2 := by decide
    rw [he] at hk
    have := Option.some.inj hk
    omega

/-- C6 (amended): `length` returns the integer `average` attributes, in
document order, of the `Read` elements matched by `findall('*//Read')`: those
nested at depth two or more.  When neither the root nor any of its direct
children is tagged `Read`, these are exactly the `Read` elements of the
statistics tree. -/
theorem length_read_averages (root : Element) (hroot : root.tag ≠ "Read")
    (hch : ∀ c ∈ root.children, c.tag ≠ "Read") :
    SequenceReadArchive.length root = allReadAverages root := by
  unfold SequenceReadArchive.length allReadAverages SequenceReadArchive.readElems
  rw [iterTag_def, if_neg hroot, iterTagList_no_tag "Read" root.children hch]
  simp

/-- C6 witness: `length` on a statistics tree with two `Read` elements under
the `Statistics` element. -/
theorem length_read_averages_witness :
    exReads.tag ≠ "Read" ∧
    (∀ c ∈ exReads.children, c.tag ≠ "Read") ∧
    SequenceReadArchive.length exReads = allReadAverages exReads ∧
    SequenceReadArchive.length exReads = some [151, 149] :=
  ⟨by decide, by decide,
    length_read_averages exReads (by decide) (by decide), by decide⟩

/-- C10: the Q30 gate divides by the total base count with no zero-guard:
when the statistics report contains no `Quality` elements (so the total base
count is zero), an invocation with the check flag set ends with an uncaught
`ZeroDivisionError` during validation rather than a clean abort, and the
dump stage is never reached. -/
theorem q30_gate_zero_division (w : World) (t : Element)
    (hw : w.sraInit = SraInit.ok t)
    (hl : SequenceReadArchive.layout t = some "2")
    (hq : SequenceReadArchive.qualityElems t = []) :
    (mainDriver true w).2 = Outcome.uncaught "ZeroDivisionError" ∧
    Stage.dumpFastq ∉ stagesOf (mainDriver true w).1 := by
  have hc : ∀ m : Int, SequenceReadArchive.count_bases t m = some 0 := by
    intro m
    rw [count_bases_eq_foldlM, hq]
    rfl
  have hcs : checkStage t = some ([], Outcome.uncaught "ZeroDivisionError") := by
    unfold checkStage
    rw [hl]
    simp [hc 30, hc 0]
  simp [mainDriver, hw, hcs, stagesOf]

/-- C10 witness: a paired-end statistics report with no `Quality` elements. -/
theorem q30_gate_zero_division_witness :
    wNoQuality.sraInit = SraInit.ok exNoQuality ∧
    SequenceReadArchive.layout exNoQuality = some "2" ∧
    SequenceReadArchive.qualityElems exNoQuality = [] ∧
    ((mainDriver true wNoQuality).2 = Outcome.uncaught "ZeroDivisionError" ∧
     Stage.dumpFastq ∉ stagesOf (mainDriver true wNoQuality).1) :=
  ⟨rfl, by decide, rfl, q30_gate_zero_division wNoQuality exNoQuality rfl (by decide) rfl⟩

/-! ## Lemmas about the driver model -/

theorem checkStage_some (t : Element) (r : List Event × Outcome)
    (h : checkStage t = some r) :
    stagesOf r.1 = [] ∧ r.2 ≠ Outcome.done ∧
    ∀ e : ApplicationError, Event.logException e ∉ r.1 := by
  unfold checkStage at h
  cases hl : SequenceReadArchive.layout t with
  | none =>
    simp only [hl] at h
    cases h
    exact ⟨rfl, by simp, fun e => by simp⟩
  | some s =>
    simp only [hl] at h
    by_cases hs : s ≠ "2"
    · rw [if_pos hs] at h
      cases h
      exact ⟨rfl, by simp, fun e => by simp⟩
    · rw [if_neg hs] at h
      cases hc30 : SequenceReadArchive.count_bases t 30 with
      | none =>
        cases hc0 : SequenceReadArchive.count_bases t 0 with
        | none =>
          simp only [hc30, hc0] at h
          cases h
          exact ⟨rfl, by simp, fun e => by simp⟩
        | some total =>
          simp only [hc30, hc0] at h
          cases h
          exact ⟨rfl, by simp, fun e => by simp⟩
      | some c30 =>
        cases hc0 : SequenceReadArchive.count_bases t 0 with
        | none =>
          simp only [hc30, hc0] at h
          cases h
          exact ⟨rfl, by simp, fun e => by simp⟩
        | some total =>
          simp only [hc30, hc0] at h
          by_cases hz : total = 0
          · rw [if_pos hz] at h
            cases h
            exact ⟨rfl, by simp, fun e => by simp⟩
          · rw [if_neg hz] at h
            by_cases hq : (c30 : ℚ) / (total : ℚ) * 100 < 80
            · rw [if_pos hq] at h
              cases h
              exact ⟨rfl, by simp, fun e => by simp⟩
            · rw [if_neg hq] at h
              cases h

theorem pipelineTail_dump_fail (pre : List Event) (w : World) (e : ApplicationError)
    (hd : w.dumpErr = some e) :
    Event.logException e ∈ (pipelineTail pre w).1 ∧
    (pipelineTail pre w).2 = Outcome.exit (some "Aborted!") ∧
    stagesOf (pipelineTail pre w).1 = stagesOf pre ++ [Stage.dumpFastq] := by
  simp [pipelineTail, hd, stagesOf_append, stagesOf]

theorem pipelineTail_trim_fail (pre : List Event) (w : World) (e : ApplicationError)
    (hd : w.dumpErr = none) (ht : w.trimErr = some e) :
    Event.logException e ∈ (pipelineTail pre w).1 ∧
    (pipelineTail pre w).2 = Outcome.exit (some "Aborted!") ∧
    stagesOf (pipelineTail pre w).1 =
      stagesOf pre ++ [Stage.dumpFastq, Stage.trimReads] := by
  simp [pipelineTail, hd, ht, stagesOf_append, stagesOf]

theorem pipelineTail_asm_fail (pre : List Event) (w : World) (e : ApplicationError)
    (hd : w.dumpErr = none) (ht : w.trimErr = none) (ha : w.asmErr = some e) :
    Event.logException e ∈ (pipelineTail pre w).1 ∧
    (pipelineTail pre w).2 = Outcome.exit (some "Aborted!") ∧
    stagesOf (pipelineTail pre w).1 =
      stagesOf pre ++ [Stage.dumpFastq, Stage.trimReads, Stage.assemble] := by
  simp [pipelineTail, hd, ht, ha, stagesOf_append, stagesOf]

theorem pipelineTail_ok (pre : List Event) (w : World)
    (hd : w.dumpErr = none) (ht : w.trimErr = none) (ha : w.asmErr = none) :
    (pipelineTail pre w).2 = Outcome.done ∧
    stagesOf (pipelineTail pre w).1 =
      stagesOf pre ++ [Stage.dumpFastq, Stage.trimReads, Stage.assemble, Stage.cleanup] := by
  simp [pipelineTail, hd, ht, ha, stagesOf_append, stagesOf]

theorem pipelineTail_logDebug (pre : List Event) (w : World) (m : String)
    (h : Event.logDebug m ∈ (pipelineTail pre w).1) : Event.logDebug m ∈ pre := by
  rcases hd : w.dumpErr with _ | e1
  · rcases ht : w.trimErr with _ | e2
    · rcases ha : w.asmErr with _ | e3
      · simp [pipelineTail, hd, ht, ha] at h
        exact h
      · simp [pipelineTail, hd, ht, ha] at h
        exact h
    · simp [pipelineTail, hd, ht] at h
      exact h
  · simp [pipelineTail, hd] at h
    exact h

theorem mainDriver_split (check : Bool) (w : World) :
    (check = false ∧ mainDriver check w = pipelineTail [Event.stage Stage.obtainReads] w) ∨
    (check = true ∧ mainDriver check w =
      pipelineTail [Event.stage Stage.obtainReads, Event.stage Stage.validate] w) ∨
    (check = true ∧
      stagesOf (mainDriver check w).1 = [Stage.obtainReads, Stage.validate] ∧
      (mainDriver check w).2 ≠ Outcome.done) := by
  cases check with
  | false => exact Or.inl ⟨rfl, rfl⟩
  | true =>
    cases hs : w.sraInit with
    | raises exc =>
      refine Or.inr (Or.inr ⟨rfl, ?_, ?_⟩) <;> simp [mainDriver, hs, stagesOf]
    | appError e0 =>
      refine Or.inr (Or.inr ⟨rfl, ?_, ?_⟩) <;> simp [mainDriver, hs, stagesOf]
    | ok t =>
      cases hcs : checkStage t with
      | none =>
        refine Or.inr (Or.inl ⟨rfl, ?_⟩)
        simp [mainDriver, hs, hcs]
      | some r =>
        obtain ⟨hr1, hr2, _⟩ := checkStage_some t r hcs
        refine Or.inr (Or.inr ⟨rfl, ?_, ?_⟩)
        · simp [mainDriver, hs, hcs, stagesOf_append, stagesOf, hr1]
        · simp [mainDriver, hs, hcs, hr2]

theorem pipelineTail_first_failure (pre : List Event) (w : World) (e : ApplicationError)
    (htr : Stage.trimReads ∉ stagesOf pre) (hasm : Stage.assemble ∉ stagesOf pre)
    (hcl : Stage.cleanup ∉ stagesOf pre) :
    (w.dumpErr = some e →
      Event.logException e ∈ (pipelineTail pre w).1 ∧
      (pipelineTail pre w).2 = Outcome.exit (some "Aborted!") ∧
      Stage.trimReads ∉ stagesOf (pipelineTail pre w).1 ∧
      Stage.assemble ∉ stagesOf (pipelineTail pre w).1 ∧
      Stage.cleanup ∉ stagesOf (pipelineTail pre w).1) ∧
    (w.trimErr = some e → Stage.trimReads ∈ stagesOf (pipelineTail pre w).1 →
      Event.logException e ∈ (pipelineTail pre w).1 ∧
      (pipelineTail pre w).2 = Outcome.exit (some "Aborted!") ∧
      Stage.assemble ∉ stagesOf (pipelineTail pre w).1 ∧
      Stage.cleanup ∉ stagesOf (pipelineTail pre w).1) ∧
    (w.asmErr = some e → Stage.assemble ∈ stagesOf (pipelineTail pre w).1 →
      Event.logException e ∈ (pipelineTail pre w).1 ∧
      (pipelineTail pre w).2 = Outcome.exit (some "Aborted!") ∧
      Stage.cleanup ∉ stagesOf (pipelineTail pre w).1) := by
  refine ⟨?_, ?_, ?_⟩
  · intro hde
    obtain ⟨h1, h2, h3⟩ := pipelineTail_dump_fail pre w e hde
    refine ⟨h1, h2, ?_, ?_, ?_⟩ <;> rw [h3] <;> simp [List.mem_append, htr, hasm, hcl]
  · intro hte hmem
    rcases hd : w.dumpErr with _ | e1
    · obtain ⟨h1, h2, h3⟩ := pipelineTail_trim_fail pre w e hd hte
      refine ⟨h1, h2, ?_, ?_⟩ <;> rw [h3] <;> simp [List.mem_append, hasm, hcl]
    · obtain ⟨_, _, h3⟩ := pipelineTail_dump_fail pre w e1 hd
      rw [h3] at hmem
      simp [List.mem_append, htr] at hmem
  · intro hae hmem
    rcases hd : w.dumpErr with _ | e1
    · rcases ht : w.trimErr with _ | e2
      · obtain ⟨h1, h2, h3⟩ := pipelineTail_asm_fail pre w e hd ht hae
        refine ⟨h1, h2, ?_⟩
        rw [h3]
        simp [List.mem_append, hcl]
      · obtain ⟨_, _, h3⟩ := pipelineTail_trim_fail pre w e2 hd ht
        rw [h3] at hmem
        simp [List.mem_append, hasm] at hmem
    · obtain ⟨_, _, h3⟩ := pipelineTail_dump_fail pre w e1 hd
      rw [h3] at hmem
      simp [List.mem_append, hasm] at hmem

/-- C2 (amended): in every invocation the executed stages follow, in order, a
subsequence of obtain reads → validate → dump → trim → assemble → clean up,
and the validation stage executes exactly when the check flag is set; so
whenever validation executes at all it is executed before the dump stage. -/
theorem stage_order_fixed (check : Bool) (w : World) :
    List.Sublist (stagesOf (mainDriver check w).1)
      [Stage.obtainReads, Stage.validate, Stage.dumpFastq, Stage.trimReads,
        Stage.assemble, Stage.cleanup] ∧
    (Stage.validate ∈ stagesOf (mainDriver check w).1 ↔ check = true) := by
  rcases mainDriver_split check w with ⟨hc, heq⟩ | ⟨hc, heq⟩ | ⟨hc, hst, _⟩
  · subst hc
    rw [heq]
    rcases hd : w.dumpErr with _ | e1
    · rcases ht : w.trimErr with _ | e2
      · rcases ha : w.asmErr with _ | e3
        · rw [(pipelineTail_ok _ w hd ht ha).2]
          exact ⟨by decide, by decide⟩
        · rw [(pipelineTail_asm_fail _ w e3 hd ht ha).2.2]
          exact ⟨by decide, by decide⟩
      · rw [(pipelineTail_trim_fail _ w e2 hd ht).2.2]
        exact ⟨by decide, by decide⟩
    · rw [(pipelineTail_dump_fail _ w e1 hd).2.2]
      exact ⟨by decide, by decide⟩
  · subst hc
    rw [heq]
    rcases hd : w.dumpErr with _ | e1
    · rcases ht : w.trimErr with _ | e2
      · rcases ha : w.asmErr with _ | e3
        · rw [(pipelineTail_ok _ w hd ht ha).2]
          exact ⟨by decide, by decide⟩
        · rw [(pipelineTail_asm_fail _ w e3 hd ht ha).2.2]
          exact ⟨by decide, by decide⟩
      · rw [(pipelineTail_trim_fail _ w e2 hd ht).2.2]
        exact ⟨by decide, by decide⟩
    · rw [(pipelineTail_dump_fail _ w e1 hd).2.2]
      exact ⟨by decide, by decide⟩
  · subst hc
    rw [hst]
    exact ⟨by decide, by decide⟩

/-- C4: when the dump-to-FASTQ, trimming or assembly invocation raises an
`ApplicationError`, the driver writes the exception to the log file, the
process exits with `sys.exit("Aborted!")`, and no later pipeline stage is
executed. -/
theorem tool_failure_logs_and_exits (check : Bool) (w : World) (e : ApplicationError) :
    (w.dumpErr = some e → Stage.dumpFastq ∈ stagesOf (mainDriver check w).1 →
      Event.logException e ∈ (mainDriver check w).1 ∧
      (mainDriver check w).2 = Outcome.exit (some "Aborted!") ∧
      Stage.trimReads ∉ stagesOf (mainDriver check w).1 ∧
      Stage.assemble ∉ stagesOf (mainDriver check w).1 ∧
      Stage.cleanup ∉ stagesOf (mainDriver check w).1) ∧
    (w.trimErr = some e → Stage.trimReads ∈ stagesOf (mainDriver check w).1 →
      Event.logException e ∈ (mainDriver check w).1 ∧
      (mainDriver check w).2 = Outcome.exit (some "Aborted!") ∧
      Stage.assemble ∉ stagesOf (mainDriver check w).1 ∧
      Stage.cleanup ∉ stagesOf (mainDriver check w).1) ∧
    (w.asmErr = some e → Stage.assemble ∈ stagesOf (mainDriver check w).1 →
      Event.logException e ∈ (mainDriver check w).1 ∧
      (mainDriver check w).2 = Outcome.exit (some "Aborted!") ∧
      Stage.cleanup ∉ stagesOf (mainDriver check w).1) := by
  rcases mainDriver_split check w with ⟨_, heq⟩ | ⟨_, heq⟩ | ⟨_, hst, _⟩
  · rw [heq]
    have aux := pipelineTail_first_failure [Event.stage Stage.obtainReads] w e
      (by decide) (by decide) (by decide)
    exact ⟨fun hde _ => aux.1 hde, aux.2.1, aux.2.2⟩
  · rw [heq]
    have aux := pipelineTail_first_failure
      [Event.stage Stage.obtainReads, Event.stage Stage.validate] w e
      (by decide) (by decide) (by decide)
    exact ⟨fun hde _ => aux.1 hde, aux.2.1, aux.2.2⟩
  · refine ⟨?_, ?_, ?_⟩ <;> intro _ hmem <;> rw [hst] at hmem <;> simp at hmem

/-- C4 witness: an unchecked run whose dump invocation fails. -/
theorem tool_failure_logs_and_exits_witness :
    wDumpFail.dumpErr = some eDump ∧
    Stage.dumpFastq ∈ stagesOf (mainDriver false wDumpFail).1 ∧
    (Event.logException eDump ∈ (mainDriver false wDumpFail).1 ∧
     (mainDriver false wDumpFail).2 = Outcome.exit (some "Aborted!") ∧
     Stage.trimReads ∉ stagesOf (mainDriver false wDumpFail).1 ∧
     Stage.assemble ∉ stagesOf (mainDriver false wDumpFail).1 ∧
     Stage.cleanup ∉ stagesOf (mainDriver false wDumpFail).1) :=
  ⟨rfl, by decide, (tool_failure_logs_and_exits false wDumpFail eDump).1 rfl (by decide)⟩

/-- C7: the clean-up stage (removal of the fastq directory) executes only
when dump, trimming and assembly all succeeded; in that case it comes after
the assembly stage and the run completes, and on any stage failure the
process exits before clean-up. -/
theorem cleanup_only_after_success (check : Bool) (w : World)
    (h : Stage.cleanup ∈ stagesOf (mainDriver check w).1) :
    w.dumpErr = none ∧ w.trimErr = none ∧ w.asmErr = none ∧
    (mainDriver check w).2 = Outcome.done ∧
    stagesOf (mainDriver check w).1 =
      [Stage.obtainReads] ++ (if check then [Stage.validate] else []) ++
        [Stage.dumpFastq, Stage.trimReads, Stage.assemble, Stage.cleanup] := by
  rcases mainDriver_split check w with ⟨hc, heq⟩ | ⟨hc, heq⟩ | ⟨hc, hst, _⟩
  · subst hc
    rw [heq] at h ⊢
    rcases hd : w.dumpErr with _ | e1
    · rcases ht : w.trimErr with _ | e2
      · rcases ha : w.asmErr with _ | e3
        · obtain ⟨h2, h3⟩ := pipelineTail_ok _ w hd ht ha
          refine ⟨rfl, rfl, rfl, h2, ?_⟩
          rw [h3]
          decide
        · rw [(pipelineTail_asm_fail _ w e3 hd ht ha).2.2] at h
          simp [stagesOf] at h
      · rw [(pipelineTail_trim_fail _ w e2 hd ht).2.2] at h
        simp [stagesOf] at h
    · rw [(pipelineTail_dump_fail _ w e1 hd).2.2] at h
      simp [stagesOf] at h
  · subst hc
    rw [heq] at h ⊢
    rcases hd : w.dumpErr with _ | e1
    · rcases ht : w.trimErr with _ | e2
      · rcases ha : w.asmErr with _ | e3
        · obtain ⟨h2, h3⟩ := pipelineTail_ok _ w hd ht ha
          refine ⟨rfl, rfl, rfl, h2, ?_⟩
          rw [h3]
          decide
        · rw [(pipelineTail_asm_fail _ w e3 hd ht ha).2.2] at h
          simp [stagesOf] at h
      · rw [(pipelineTail_trim_fail _ w e2 hd ht).2.2] at h
        simp [stagesOf] at h
    · rw [(pipelineTail_dump_fail _ w e1 hd).2.2] at h
      simp [stagesOf] at h
  · rw [hst] at h
    simp at h

/-- C7 witness: an unchecked run in which every tool succeeds. -/
theorem cleanup_only_after_success_witness :
    Stage.cleanup ∈ stagesOf (mainDriver false wAllOk).1 ∧
    (wAllOk.dumpErr = none ∧ wAllOk.trimErr = none ∧ wAllOk.asmErr = none ∧
     (mainDriver false wAllOk).2 = Outcome.done ∧
     stagesOf (mainDriver false wAllOk).1 =
       [Stage.obtainReads] ++ (if false then [Stage.validate] else []) ++
         [Stage.dumpFastq, Stage.trimReads, Stage.assemble, Stage.cleanup]) :=
  ⟨by decide, cleanup_only_after_success false wAllOk (by decide)⟩

/-- C5: `layout` returns the `nreads` attribute (a string) of the top-level
`Statistics` element, and in a checked run the driver treats the archive as
paired-end exactly when this value equals `"2"`: otherwise it logs the
layout message and exits with `sys.exit("Aborted")` before the dump stage. -/
theorem layout_paired_end_gate (root st : Element) (v : String) (w : World) :
    (root.children.find? (fun c => c.tag = "Statistics") = some st →
      st.attr "nreads" = some v → SequenceReadArchive.layout root = some v) ∧
    (w.sraInit = SraInit.ok root → SequenceReadArchive.layout root = some v →
      ((Event.logDebug "Layout is not pair-end" ∈ (mainDriver true w).1 ↔ v ≠ "2") ∧
       (v ≠ "2" → (mainDriver true w).2 = Outcome.exit (some "Aborted") ∧
         Stage.dumpFastq ∉ stagesOf (mainDriver true w).1))) := by
  constructor
  · intro hfind hattr
    unfold SequenceReadArchive.layout
    rw [hfind]
    simp [hattr]
  · intro hw hlay
    by_cases hv : v = "2"
    · subst hv
      have hnotin : Event.logDebug "Layout is not pair-end" ∉ (mainDriver true w).1 := by
        cases hc30 : SequenceReadArchive.count_bases root 30 with
        | none =>
          cases hc0 : SequenceReadArchive.count_bases root 0 with
          | none =>
            have hcs : checkStage root = some ([], Outcome.uncaught "ValueError") := by
              unfold checkStage
              simp only [hlay]
              simp [hc30, hc0]
            simp [mainDriver, hw, hcs]
          | some total =>
            have hcs : checkStage root = some ([], Outcome.uncaught "ValueError") := by
              unfold checkStage
              simp only [hlay]
              simp [hc30, hc0]
            simp [mainDriver, hw, hcs]
        | some c30 =>
          cases hc0 : SequenceReadArchive.count_bases root 0 with
          | none =>
            have hcs : checkStage root = some ([], Outcome.uncaught "ValueError") := by
              unfold checkStage
              simp only [hlay]
              simp [hc30, hc0]
            simp [mainDriver, hw, hcs]
          | some total =>
            by_cases hz : total = 0
            · have hcs : checkStage root = some ([], Outcome.uncaught "ZeroDivisionError") := by
                unfold checkStage
                simp only [hlay]
                simp [hc30, hc0, hz]
              simp [mainDriver, hw, hcs]
            · by_cases hq : (c30 : ℚ) / (total : ℚ) * 100 < 80
              · have hcs : checkStage root =
                    some ([Event.logDebug "q30 bases < 80%%"], Outcome.exit (some "Aborted")) := by
                  unfold checkStage
                  simp only [hlay]
                  simp [hc30, hc0, hz, hq]
                simp [mainDriver, hw, hcs]
              · have hcs : checkStage root = none := by
                  unfold checkStage
                  simp only [hlay]
                  simp [hc30, hc0, hz, hq]
                intro hmem
                have hmem2 : Event.logDebug "Layout is not pair-end" ∈
                    (pipelineTail [Event.stage Stage.obtainReads,
                      Event.stage Stage.validate] w).1 := by
                  simpa [mainDriver, hw, hcs] using hmem
                have h2 := pipelineTail_logDebug _ w _ hmem2
                simp at h2
      exact ⟨by simp [hnotin], fun hne => absurd rfl hne⟩
    · have hcs : checkStage root =
          some ([Event.logDebug "Layout is not pair-end"], Outcome.exit (some "Aborted")) := by
        unfold checkStage
        simp only [hlay]
        rw [if_pos hv]
      refine ⟨?_, fun _ => ⟨?_, ?_⟩⟩
      · simp [mainDriver, hw, hcs, hv]
      · simp [mainDriver, hw, hcs]
      · simp [mainDriver, hw, hcs, stagesOf]

/-- C5 witness: a single-end archive (`nreads` is `"1"`) aborts the checked
run at the layout gate. -/
theorem layout_paired_end_gate_witness :
    exUnpaired.children.find? (fun c => c.tag = "Statistics") =
      some ⟨"Statistics", [("nreads", "1")], []⟩ ∧
    (⟨"Statistics", [("nreads", "1")], []⟩ : Element).attr "nreads" = some "1" ∧
    wUnpaired.sraInit = SraInit.ok exUnpaired ∧
    SequenceReadArchive.layout exUnpaired = some "1" ∧
    ((Event.logDebug "Layout is not pair-end" ∈ (mainDriver true wUnpaired).1 ↔
        ("1" : String) ≠ "2") ∧
     (("1" : String) ≠ "2" → (mainDriver true wUnpaired).2 = Outcome.exit (some "Aborted") ∧
       Stage.dumpFastq ∉ stagesOf (mainDriver true wUnpaired).1)) :=
  ⟨rfl, by decide, rfl, by decide,
    (layout_paired_end_gate exUnpaired ⟨"Statistics", [("nreads", "1")], []⟩ "1"
      wUnpaired).2 rfl (by decide)⟩
